import Mathlib

/- Shallow embedding of the rate-limiter repository.

   Time instants and durations are modelled as integer nanoseconds;
   instants count from Go's zero time, as in the `time` package, so
   `time.Time.Before` is the strict order `<` and the zero `time.Time`
   is `0`.  Each Go function that reads `time.Now()` takes the current
   instant as an explicit `now` argument; fallible operations return an
   `Option GoError` in place of Go's `error` (with `none` for `nil`).
   Mutable state (the in-memory map, the redis database) is passed and
   returned explicitly. -/

/-- Error values of the program: storage faults and the invalid-limit
configuration error of `fixedWindow.Allow`. -/
inductive GoError where
  | storage
  | config
  deriving DecidableEq

/-- A stored counter entry (`Entry` in internal/storage/memory/memory.go):
`Count int64`, `Expiry time.Time`. -/
structure Entry where
  count : Int
  expiry : Int
  deriving DecidableEq

/-- The memory store's field `m map[string]*Entry`: the outer `Option` is key
presence in the map, the inner `Option` is the pointer (`none` = nil
`*Entry`, which the Go code checks for defensively). -/
def MemMap : Type := String → Option (Option Entry)

/-- Pointwise update of a map modelled as a function. -/
def updateFn {α : Type} (m : String → α) (k : String) (v : α) : String → α :=
  fun q => if q = k then v else m q

/-- The empty map of `NewMemoryStore` (internal/storage/memory/memory.go). -/
def NewMemoryStore : MemMap := fun _ => none

/-- `MemoryStore.Increment` (internal/storage/memory/memory.go lines 45-61):
if the key is absent, the pointer nil, or `e.Expiry.Before(now)`, store a
fresh entry with count 1 and expiry `now+ttl`; otherwise bump the existing
entry's count through the pointer and return its expiry unchanged.  Returns
`(count, expiry, error)` together with the updated map. -/
def MemoryStore.Increment (m : MemMap) (key : String) (ttl now : Int) :
    (Int × Int × Option GoError) × MemMap :=
  match m key with
  | some (some e) =>
    if e.expiry < now then
      ((1, now + ttl, none), updateFn m key (some (some ⟨1, now + ttl⟩)))
    else
      ((e.count + 1, e.expiry, none),
        updateFn m key (some (some ⟨e.count + 1, e.expiry⟩)))
  | _ => ((1, now + ttl, none), updateFn m key (some (some ⟨1, now + ttl⟩)))

/-- `MemoryStore.Get` (internal/storage/memory/memory.go lines 63-73):
returns `(0, zero-time, nil)` when the key is absent, nil, or
`e.Expiry.Before(now)`; otherwise the live count and expiry.  Read-only. -/
def MemoryStore.Get (m : MemMap) (key : String) (now : Int) :
    Int × Int × Option GoError :=
  match m key with
  | some (some e) =>
    if e.expiry < now then (0, 0, none) else (e.count, e.expiry, none)
  | _ => (0, 0, none)

/-- One pass of the background sweep in `MemoryStore.cleanupLoop`
(internal/storage/memory/memory.go lines 26-43): delete nil pointers and
entries with `e.Expiry.Before(now)`. -/
def MemoryStore.cleanupSweep (m : MemMap) (now : Int) : MemMap :=
  fun k =>
    match m k with
    | some (some e) => if e.expiry < now then none else some (some e)
    | _ => none

/-- `config.ClientConfig` (config package). -/
structure ClientConfig where
  limit : Int
  window : Int
  deriving DecidableEq

/-- `config.DefaultConfig`: 100 requests per `time.Minute`. -/
def DefaultConfig : ClientConfig := ⟨100, 60000000000⟩

/-- `keyForClient` (internal/limiter): `fmt.Sprintf("rate:%s", client)`. -/
def keyForClient (client : String) : String := "rate:" ++ client

/-- The `limiter.Store` interface, as a state-passing function:
arguments key, ttl, now, state; result `(count, expiry, error)` and the
new state. -/
def StoreFn (σ : Type) : Type :=
  String → Int → Int → σ → (Int × Int × Option GoError) × σ

/-- The memory store as a `Store` (only `Increment` is used by the
limiter's hot path). -/
def memStoreFn : StoreFn MemMap :=
  fun key ttl now m => MemoryStore.Increment m key ttl now

/-- `Limiter.Allow` (internal/limiter): resolve the client's config
(falling back to `config.DefaultConfig`), call `store.Increment(key, window)`,
on error return `(true, cfg.Limit, zero-time, err)`; otherwise derive
`allowed = counter <= limit`, clamp `remaining` at 0, and zero the returned
expiry when `expiry.Before(now)`.  The Go code reads `time.Now()` once in
`Allow` and once inside the store; both reads are modelled by the same
`now`. -/
def Limiter.Allow {σ : Type} (store : StoreFn σ)
    (configs : String → Option ClientConfig) (client : String) (now : Int)
    (st : σ) : (Bool × Int × Int × Option GoError) × σ :=
  let cfg := (configs client).getD DefaultConfig
  let r := store (keyForClient client) cfg.window now st
  let counter := r.1.1
  let expiry := r.1.2.1
  match r.1.2.2 with
  | some e => ((true, cfg.limit, 0, some e), r.2)
  | none =>
    let allowed := decide (counter ≤ cfg.limit)
    let remaining := if cfg.limit - counter < 0 then 0 else cfg.limit - counter
    if expiry < now then ((allowed, remaining, 0, none), r.2)
    else ((allowed, remaining, expiry, none), r.2)

/-- CLAIM C1 (counterexample).  The claim reads "an entry counts as
logically absent once now ≥ its expiry" and demands that `Increment` then
create a fresh entry with count 1 and expiry `now+ttl`.  At `now = expiry`
(here both 100) the code's test `e.Expiry.Before(now)` is false, so the
existing entry (count 3) is incremented to 4 and its old expiry returned:
the entry is still treated as live exactly at its expiry instant. -/
theorem C1_counterexample :
    (100 : Int) ≥ 100 ∧
    (MemoryStore.Increment
        (updateFn NewMemoryStore "k" (some (some ⟨3, 100⟩))) "k" 7 100).1
      = (4, 100, none) ∧
    (4 : Int) ≠ 1 ∧ (100 : Int) ≠ 100 + 7 := by
  refine ⟨le_refl _, ?_, by decide, by decide⟩
  rfl

/-- CLAIM C1 (amended): for every key and ttl, `Increment` creates the
entry with count 1 and expiry `now+ttl` when the key is absent, nil, or
*strictly* expired (`expiry < now`); when the entry is live at `now`
(`now ≤ expiry`, including `now = expiry`) it increments the stored count
by one and returns the existing expiry unchanged. -/
theorem C1_increment (m : MemMap) (key : String) (ttl now : Int) :
    ((m key = none ∨ m key = some none ∨
        ∃ e, m key = some (some e) ∧ e.expiry < now) →
      (MemoryStore.Increment m key ttl now).1 = (1, now + ttl, none) ∧
      (MemoryStore.Increment m key ttl now).2 key = some (some ⟨1, now + ttl⟩)) ∧
    (∀ e, m key = some (some e) → ¬ e.expiry < now →
      (MemoryStore.Increment m key ttl now).1 = (e.count + 1, e.expiry, none) ∧
      (MemoryStore.Increment m key ttl now).2 key
        = some (some ⟨e.count + 1, e.expiry⟩)) := by
  constructor
  · rintro (h | h | ⟨e, h, hexp⟩)
    · simp [MemoryStore.Increment, h, updateFn]
    · simp [MemoryStore.Increment, h, updateFn]
    · simp [MemoryStore.Increment, h, hexp, updateFn]
  · intro e h hexp
    simp [MemoryStore.Increment, h, hexp, updateFn]

/-- CLAIM C1 witness: a fresh key is created with count 1 and expiry
`now+ttl`, and a live entry (expiry 50, now 40) is incremented in place. -/
theorem C1_witness :
    ((NewMemoryStore "a" = none ∨ NewMemoryStore "a" = some none ∨
        ∃ e, NewMemoryStore "a" = some (some e) ∧ e.expiry < 10) →
      (MemoryStore.Increment NewMemoryStore "a" 5 10).1 = (1, 10 + 5, none) ∧
      (MemoryStore.Increment NewMemoryStore "a" 5 10).2 "a"
        = some (some ⟨1, 10 + 5⟩)) ∧
    (∀ e, NewMemoryStore "a" = some (some e) → ¬ e.expiry < 10 →
      (MemoryStore.Increment NewMemoryStore "a" 5 10).1
        = (e.count + 1, e.expiry, none) ∧
      (MemoryStore.Increment NewMemoryStore "a" 5 10).2 "a"
        = some (some ⟨e.count + 1, e.expiry⟩)) :=
  C1_increment NewMemoryStore "a" 5 10

/-- CLAIM C9: the in-memory backend never fails: both `Increment` and
`Get` return a nil error on every input. -/
theorem C9_memory_never_errors (m : MemMap) (key : String) (ttl now : Int) :
    (MemoryStore.Increment m key ttl now).1.2.2 = none ∧
    (MemoryStore.Get m key now).2.2 = none := by
  constructor
  · unfold MemoryStore.Increment
    rcases m key with _ | (_ | e) <;> simp <;> split <;> simp
  · unfold MemoryStore.Get
    rcases m key with _ | (_ | e) <;> simp <;> split <;> simp

/-- `limiter.ClientLimit` (limiter/limiter.go): `Requests int`,
`Window time.Duration`. -/
structure ClientLimit where
  requests : Int
  window : Int
  deriving DecidableEq

/-- `RateLimiter.GetLimit` (limiter/limiter.go lines 47-54): the explicit
per-client entry if configured, else the process-wide default. -/
def RateLimiter.GetLimit (clientLimits : String → Option ClientLimit)
    (defaultLimit : ClientLimit) (clientID : String) : ClientLimit :=
  (clientLimits clientID).getD defaultLimit

/-- `fixedWindow.windowStart` (limiter/fixed_window.go): `t.Truncate(window)`.
Go's `Time.Truncate` rounds down to a multiple of the duration counted from
the zero time, and returns `t` unchanged for non-positive durations. -/
def windowStart (t window : Int) : Int :=
  if window ≤ 0 then t else t - t % window

/-- `Time.Unix()` for an instant of `t` nanoseconds since Go's zero time:
the (floored) number of seconds since the Unix epoch, which lies
62135596800 seconds after the zero time. -/
def unixSeconds (t : Int) : Int :=
  t / 1000000000 - 62135596800

/-- `fixedWindow.generateKey` (limiter/fixed_window.go lines 17-20):
`fmt.Sprintf("reatelimit:%s:%d", ClientID, ws.Unix())` where `ws` is the
window start. -/
def fixedWindow.generateKey (clientID : String) (t window : Int) : String :=
  "reatelimit:" ++ clientID ++ ":" ++ Int.repr (unixSeconds (windowStart t window))

/-- The `RedisClient` operations used by `fixedWindow.Allow`, as
state-passing functions: `Incr(ctx, key)` and `Expire(ctx, key, window)`. -/
structure RedisClient (σ : Type) where
  incr : String → σ → (Int × Option GoError) × σ
  expire : String → Int → σ → (Bool × Option GoError) × σ

/-- `fixedWindow.Allow` (limiter/fixed_window.go lines 22-51): resolve the
limit through `GetLimit`, fail fast on a non-positive requests or window,
`Incr` the window-stamped key, set its expiry when the count is 1, clamp
`remaining` at 0, and return `allowed = count <= limit.Requests` together
with the time left until the next window boundary. -/
def fixedWindow.Allow {σ : Type} (rc : RedisClient σ)
    (clientLimits : String → Option ClientLimit) (defaultLimit : ClientLimit)
    (clientID : String) (now : Int) (st : σ) :
    (Bool × Int × Int × Option GoError) × σ :=
  let limit := RateLimiter.GetLimit clientLimits defaultLimit clientID
  if limit.requests ≤ 0 ∨ limit.window ≤ 0 then
    ((false, 0, 0, some GoError.config), st)
  else
    let key := fixedWindow.generateKey clientID now limit.window
    let r1 := rc.incr key st
    match r1.1.2 with
    | some e => ((false, 0, 0, some e), r1.2)
    | none =>
      let count := r1.1.1
      let r2 := if count = 1 then rc.expire key limit.window r1.2
                else ((true, none), r1.2)
      match r2.1.2 with
      | some e => ((false, 0, 0, some e), r2.2)
      | none =>
        let remaining := if limit.requests - count < 0 then 0
                         else limit.requests - count
        ((decide (count ≤ limit.requests), remaining,
          windowStart now limit.window + limit.window - now, none), r2.2)

/-- CLAIM C2 (counterexample).  The claim demands that `resetAt` be absent
(zero) whenever the entry's expiry is not in the future at read time.  With
an entry at key "rate:c" whose expiry equals the read time `now = 100`, the
expiry is not in the future, yet `Limiter.Allow` returns `resetAt = 100`,
because the code zeroes it only when `expiry.Before(now)` holds strictly. -/
theorem C2_counterexample :
    (Limiter.Allow memStoreFn (fun _ => none) "c" 100
        (updateFn NewMemoryStore "rate:c" (some (some ⟨1, 100⟩)))).1
      = (true, 98, 100, none) ∧
    ¬ (100 : Int) > 100 ∧ (100 : Int) ≠ 0 := by
  refine ⟨?_, by decide, by decide⟩
  rfl

/-- CLAIM C2 (amended): for every successful `Limiter.Allow` call that
observed `counter` from the store under effective config `cfg` with
`counter ≥ 0` and `cfg.limit ≥ 0`, the decision satisfies
`allowed = (counter ≤ limit)` and `remaining = max(0, limit - counter)`
with `remaining ∈ [0, limit]`, the error is nil, and `resetAt` is zero
whenever the observed expiry is *strictly* before `now` (at
`expiry = now` the expiry itself is returned). -/
theorem C2_decision (σ : Type) (store : StoreFn σ)
    (configs : String → Option ClientConfig) (client : String) (now : Int)
    (st : σ) (cfg : ClientConfig) (counter expiry : Int) (st' : σ)
    (hcfg : (configs client).getD DefaultConfig = cfg)
    (hcall : store (keyForClient client) cfg.window now st
      = ((counter, expiry, none), st'))
    (hc : 0 ≤ counter) (hl : 0 ≤ cfg.limit) :
    (Limiter.Allow store configs client now st).1.1
        = decide (counter ≤ cfg.limit) ∧
    (Limiter.Allow store configs client now st).1.2.1
        = max 0 (cfg.limit - counter) ∧
    0 ≤ (Limiter.Allow store configs client now st).1.2.1 ∧
    (Limiter.Allow store configs client now st).1.2.1 ≤ cfg.limit ∧
    (expiry < now → (Limiter.Allow store configs client now st).1.2.2.1 = 0) ∧
    (¬ expiry < now →
      (Limiter.Allow store configs client now st).1.2.2.1 = expiry) ∧
    (Limiter.Allow store configs client now st).1.2.2.2 = none := by
  have h1 : (Limiter.Allow store configs client now st).1
      = (decide (counter ≤ cfg.limit),
         (if cfg.limit - counter < 0 then 0 else cfg.limit - counter),
         (if expiry < now then 0 else expiry), none) := by
    simp only [Limiter.Allow]
    rw [hcfg, hcall]
    by_cases hexp : expiry < now <;> simp [hexp]
  refine ⟨by simp only [h1], by simp only [h1]; split <;> omega,
    by simp only [h1]; split <;> omega, by simp only [h1]; split <;> omega,
    fun h => by simp only [h1]; simp [h], fun h => by simp only [h1]; simp [h],
    by simp only [h1]⟩

/-- CLAIM C2 witness: a concrete successful call on a fresh memory store
(counter 1, expiry 60000000000) under the default config. -/
theorem C2_witness :
    (Limiter.Allow memStoreFn (fun _ => none) "c" 0 NewMemoryStore).1.1
        = decide ((1 : Int) ≤ DefaultConfig.limit) ∧
    (Limiter.Allow memStoreFn (fun _ => none) "c" 0 NewMemoryStore).1.2.1
        = max 0 (DefaultConfig.limit - 1) ∧
    0 ≤ (Limiter.Allow memStoreFn (fun _ => none) "c" 0 NewMemoryStore).1.2.1 ∧
    (Limiter.Allow memStoreFn (fun _ => none) "c" 0 NewMemoryStore).1.2.1
        ≤ DefaultConfig.limit ∧
    ((60000000000 : Int) < 0 →
      (Limiter.Allow memStoreFn (fun _ => none) "c" 0 NewMemoryStore).1.2.2.1
        = 0) ∧
    (¬ (60000000000 : Int) < 0 →
      (Limiter.Allow memStoreFn (fun _ => none) "c" 0 NewMemoryStore).1.2.2.1
        = 60000000000) ∧
    (Limiter.Allow memStoreFn (fun _ => none) "c" 0 NewMemoryStore).1.2.2.2
        = none :=
  C2_decision MemMap memStoreFn (fun _ => none) "c" 0 NewMemoryStore
    DefaultConfig 1 60000000000
    (MemoryStore.Increment NewMemoryStore "rate:c" 60000000000 0).2
    rfl rfl (by decide) (by decide)

/-- CLAIM C5 (counterexample).  Client "c" is configured with the malformed
limit 0 (requests ≤ 0).  The claim demands that `Allow` fail fast with a
configuration error, but the internal `Limiter.Allow` performs no
validation: it consults the store and returns a nil error while silently
denying the request (allowed = false, remaining = 0). -/
theorem C5_counterexample :
    (Limiter.Allow memStoreFn
        (fun c => if c = "c" then some ⟨0, 1000000000⟩ else none) "c" 0
        NewMemoryStore).1 = (false, 0, 1000000000, none) := by
  rfl

/-- CLAIM C5 (amended): the engine in limiter/fixed_window.go fails fast:
whenever the effective limit has `requests ≤ 0` or `window ≤ 0`,
`fixedWindow.Allow` returns the configuration error without touching the
store.  The engine in internal/limiter does not validate: with a malformed
`limit ≤ 0` it returns a nil error and silently denies. -/
theorem C5_validation :
    (∀ (σ : Type) (rc : RedisClient σ)
        (clientLimits : String → Option ClientLimit)
        (defaultLimit : ClientLimit) (clientID : String) (now : Int) (st : σ),
      (RateLimiter.GetLimit clientLimits defaultLimit clientID).requests ≤ 0 ∨
        (RateLimiter.GetLimit clientLimits defaultLimit clientID).window ≤ 0 →
      fixedWindow.Allow rc clientLimits defaultLimit clientID now st
        = ((false, 0, 0, some GoError.config), st)) ∧
    (∀ (configs : String → Option ClientConfig) (client : String) (now : Int)
        (m : MemMap) (cfg : ClientConfig), configs client = some cfg →
      cfg.limit ≤ 0 → m (keyForClient client) = none →
      (Limiter.Allow memStoreFn configs client now m).1.1 = false ∧
      (Limiter.Allow memStoreFn configs client now m).1.2.2.2 = none) := by
  constructor
  · intro σ rc clientLimits defaultLimit clientID now st h
    simp only [fixedWindow.Allow]
    rw [if_pos h]
  · intro configs client now m cfg hcfg hlim habs
    have hgetd : (configs client).getD DefaultConfig = cfg := by rw [hcfg]; rfl
    have hstore : memStoreFn (keyForClient client) cfg.window now m
        = ((1, now + cfg.window, none),
           updateFn m (keyForClient client)
             (some (some ⟨1, now + cfg.window⟩))) := by
      simp [memStoreFn, MemoryStore.Increment, habs]
    have hlim1 : ¬ (1 : Int) ≤ cfg.limit := by omega
    constructor
    · simp only [Limiter.Allow]
      rw [hgetd, hstore]
      by_cases hexp : now + cfg.window < now <;> simp [hexp, hlim1]
    · simp only [Limiter.Allow]
      rw [hgetd, hstore]
      by_cases hexp : now + cfg.window < now <;> simp [hexp]

/-- CLAIM C5 witness: the fast-fail branch at a concrete malformed default
limit (requests 0), and the silent-deny of the internal engine at a
concrete malformed per-client config. -/
theorem C5_witness :
    fixedWindow.Allow
        ⟨fun _ s => ((0, none), s), fun _ _ s => ((true, none), s)⟩
        (fun _ => none) ⟨0, 1000000000⟩ "c" 0 ()
      = ((false, 0, 0, some GoError.config), ()) ∧
    ((Limiter.Allow memStoreFn
        (fun c => if c = "c" then some ⟨0, 1000000000⟩ else none) "c" 5
        NewMemoryStore).1.1 = false ∧
     (Limiter.Allow memStoreFn
        (fun c => if c = "c" then some ⟨0, 1000000000⟩ else none) "c" 5
        NewMemoryStore).1.2.2.2 = none) :=
  ⟨C5_validation.1 Unit
      ⟨fun _ s => ((0, none), s), fun _ _ s => ((true, none), s)⟩
      (fun _ => none) ⟨0, 1000000000⟩ "c" 0 () (Or.inl (by decide)),
   C5_validation.2 (fun c => if c = "c" then some ⟨0, 1000000000⟩ else none)
      "c" 5 NewMemoryStore ⟨0, 1000000000⟩ rfl (by decide) rfl⟩

/-- CLAIM C8: an unknown client identifier resolves to the process-wide
default: `RateLimiter.GetLimit` returns the default limit, and the internal
`Limiter.Allow` proceeds under `config.DefaultConfig` (100 per minute),
admitting the first request of a fresh key with remaining 99, a full-window
reset time, and no error. -/
theorem C8_default_limit :
    (∀ (clientLimits : String → Option ClientLimit)
        (defaultLimit : ClientLimit) (client : String),
      clientLimits client = none →
      RateLimiter.GetLimit clientLimits defaultLimit client = defaultLimit) ∧
    (∀ (configs : String → Option ClientConfig) (client : String) (now : Int)
        (m : MemMap), configs client = none → m (keyForClient client) = none →
      (Limiter.Allow memStoreFn configs client now m).1
        = (true, 99, now + 60000000000, none)) := by
  constructor
  · intro clientLimits defaultLimit client h
    simp [RateLimiter.GetLimit, h]
  · intro configs client now m hcfg habs
    have hgetd : (configs client).getD DefaultConfig = DefaultConfig := by
      rw [hcfg]; rfl
    have hstore : memStoreFn (keyForClient client) DefaultConfig.window now m
        = ((1, now + 60000000000, none),
           updateFn m (keyForClient client)
             (some (some ⟨1, now + 60000000000⟩))) := by
      simp [memStoreFn, MemoryStore.Increment, habs, DefaultConfig]
    have hexp : ¬ now + 60000000000 < now := by omega
    simp only [Limiter.Allow]
    rw [hgetd, hstore]
    simp [hexp, DefaultConfig]

/-- CLAIM C8 witness: a concrete unknown client under a concrete default. -/
theorem C8_witness :
    RateLimiter.GetLimit (fun _ => none) ⟨7, 1000⟩ "zed" = ⟨7, 1000⟩ ∧
    (Limiter.Allow memStoreFn (fun _ => none) "zed" 0 NewMemoryStore).1
      = (true, 99, 0 + 60000000000, none) :=
  ⟨C8_default_limit.1 (fun _ => none) ⟨7, 1000⟩ "zed" rfl,
   C8_default_limit.2 (fun _ => none) "zed" 0 NewMemoryStore rfl rfl⟩

/-- A store whose `Increment` always fails: the injected `StorageError` of
the spec's failure scenario. -/
def failingStore : StoreFn Unit :=
  fun _ _ _ s => ((0, 0, some GoError.storage), s)

/-- A redis client whose `Incr` always fails. -/
def failingRedis : RedisClient Unit :=
  ⟨fun _ s => ((0, some GoError.storage), s), fun _ _ s => ((true, none), s)⟩

/-- CLAIM C6 (counterexample).  On the same storage fault the two `Allow`
implementations disagree: the internal `Limiter.Allow` returns
allowed = true (fail-open) while `fixedWindow.Allow` under a valid limit
returns allowed = false (fail-closed); the policy is not uniform. -/
theorem C6_counterexample :
    (Limiter.Allow failingStore (fun _ => none) "c" 0 ()).1.1 = true ∧
    (Limiter.Allow failingStore (fun _ => none) "c" 0 ()).1.2.2.2
      = some GoError.storage ∧
    (fixedWindow.Allow failingRedis (fun _ => none) ⟨5, 1000000000⟩
        "c" 0 ()).1.1 = false ∧
    (fixedWindow.Allow failingRedis (fun _ => none) ⟨5, 1000000000⟩
        "c" 0 ()).1.2.2.2 = some GoError.storage ∧
    true ≠ false := by
  refine ⟨rfl, rfl, rfl, rfl, by decide⟩

/-- CLAIM C6 (amended): each implementation does report storage failure
through a non-nil error (distinguishable from a normal deny, which carries
a nil error), but the fail policy differs between them rather than being
uniform: `Limiter.Allow` fails open, `fixedWindow.Allow` fails closed. -/
theorem C6_failure_policies :
    (∀ (σ : Type) (store : StoreFn σ)
        (configs : String → Option ClientConfig) (client : String)
        (now : Int) (st : σ) (c x : Int) (e : GoError) (st' : σ),
      store (keyForClient client)
          ((configs client).getD DefaultConfig).window now st
        = ((c, x, some e), st') →
      (Limiter.Allow store configs client now st).1.1 = true ∧
      (Limiter.Allow store configs client now st).1.2.2.2 = some e) ∧
    (∀ (σ : Type) (rc : RedisClient σ)
        (clientLimits : String → Option ClientLimit)
        (defaultLimit : ClientLimit) (clientID : String) (now : Int)
        (st : σ) (c : Int) (e : GoError) (st' : σ),
      0 < (RateLimiter.GetLimit clientLimits defaultLimit clientID).requests →
      0 < (RateLimiter.GetLimit clientLimits defaultLimit clientID).window →
      rc.incr (fixedWindow.generateKey clientID now
          (RateLimiter.GetLimit clientLimits defaultLimit clientID).window) st
        = ((c, some e), st') →
      (fixedWindow.Allow rc clientLimits defaultLimit clientID now st).1.1
        = false ∧
      (fixedWindow.Allow rc clientLimits defaultLimit clientID now st).1.2.2.2
        = some e) := by
  constructor
  · intro σ store configs client now st c x e st' hcall
    simp only [Limiter.Allow]
    rw [hcall]
    exact ⟨rfl, rfl⟩
  · intro σ rc clientLimits defaultLimit clientID now st c e st' hreq hwin hincr
    have hvalid : ¬ ((RateLimiter.GetLimit clientLimits defaultLimit
        clientID).requests ≤ 0 ∨
        (RateLimiter.GetLimit clientLimits defaultLimit clientID).window ≤ 0) := by
      omega
    simp only [fixedWindow.Allow]
    rw [if_neg hvalid, hincr]
    exact ⟨rfl, rfl⟩

/-- CLAIM C6 witness: the two policies at a concrete fault (the failing
store and redis client above). -/
theorem C6_witness :
    ((Limiter.Allow failingStore (fun _ => none) "w" 3 ()).1.1 = true ∧
     (Limiter.Allow failingStore (fun _ => none) "w" 3 ()).1.2.2.2
       = some GoError.storage) ∧
    ((fixedWindow.Allow failingRedis (fun _ => none) ⟨9, 2000000000⟩
        "w" 3 ()).1.1 = false ∧
     (fixedWindow.Allow failingRedis (fun _ => none) ⟨9, 2000000000⟩
        "w" 3 ()).1.2.2.2 = some GoError.storage) :=
  ⟨C6_failure_policies.1 Unit failingStore (fun _ => none) "w" 3 () 0 0
      GoError.storage () rfl,
   C6_failure_policies.2 Unit failingRedis (fun _ => none) ⟨9, 2000000000⟩
      "w" 3 () 0 GoError.storage () (by decide) (by decide) rfl⟩

/-- The redis database behind `RedisStore` (redis storage backend):
counter values, and the remaining TTL of keys that have one. -/
structure RedisDB where
  vals : String → Option Int
  ttls : String → Option Int

/-- Fault injection for the redis backend: whether the batched INCR+TTL
pipeline fails, and whether the follow-up EXPIRE fails - the spec's
injected `StorageError`. -/
structure RedisFaults where
  pipeFail : Bool
  expireFail : Bool
  deriving DecidableEq

/-- `RedisStore.Increment` (redis storage backend, lines 20-47): run INCR
and TTL as one pipeline (on pipeline error return `(0, zero-time, err)`
with nothing applied); the TTL read yields -1 when the key has no TTL set
(-2, no key, cannot occur right after INCR); if it is -1 or -2 issue
EXPIRE, and on an EXPIRE error return the already-incremented counter with
a zero expiry and the error; otherwise report expiry `now + remaining`. -/
def RedisStore.Increment (f : RedisFaults) (db : RedisDB) (key : String)
    (ttl now : Int) : (Int × Int × Option GoError) × RedisDB :=
  if f.pipeFail then ((0, 0, some GoError.storage), db)
  else
    let counter := (db.vals key).getD 0 + 1
    let db1 : RedisDB := ⟨updateFn db.vals key (some counter), db.ttls⟩
    let currentTTL := (db.ttls key).getD (-1)
    if currentTTL = -1 ∨ currentTTL = -2 then
      if f.expireFail then ((counter, 0, some GoError.storage), db1)
      else ((counter, now + ttl, none),
            ⟨db1.vals, updateFn db1.ttls key (some ttl)⟩)
    else ((counter, now + currentTTL, none), db1)

/-- CLAIM C4 (counterexample).  With the pipeline succeeding but the
follow-up EXPIRE failing on a brand-new key, `RedisStore.Increment`
returns a non-nil error, yet the stored counter was advanced from absent
to 1: a failed call can leave the counter incremented. -/
theorem C4_counterexample :
    (RedisStore.Increment ⟨false, true⟩ ⟨fun _ => none, fun _ => none⟩
        "k" 60 0).1.2.2 = some GoError.storage ∧
    (RedisStore.Increment ⟨false, true⟩ ⟨fun _ => none, fun _ => none⟩
        "k" 60 0).2.vals "k" = some 1 ∧
    (RedisDB.mk (fun _ => none) (fun _ => none)).vals "k" = none := by
  exact ⟨rfl, rfl, rfl⟩

/-- CLAIM C4 (amended): when the batched INCR+TTL pipeline itself fails,
`RedisStore.Increment` returns a non-nil error and the database is
unchanged (no partial increment); but when the increment succeeds and only
the follow-up EXPIRE fails, the call returns a non-nil error with the
counter already advanced by one. -/
theorem C4_no_partial_increment (f : RedisFaults) (db : RedisDB)
    (key : String) (ttl now : Int) :
    (f.pipeFail = true →
      (RedisStore.Increment f db key ttl now).1.2.2 = some GoError.storage ∧
      (RedisStore.Increment f db key ttl now).2 = db) ∧
    (f.pipeFail = false → f.expireFail = true → db.ttls key = none →
      (RedisStore.Increment f db key ttl now).1.2.2 = some GoError.storage ∧
      (RedisStore.Increment f db key ttl now).2.vals key
        = some ((db.vals key).getD 0 + 1)) := by
  constructor
  · intro h
    simp [RedisStore.Increment, h]
  · intro h1 h2 h3
    simp [RedisStore.Increment, h1, h2, h3, updateFn]

/-- CLAIM C4 witness: the pipeline-failure branch leaves a concrete
database untouched; the EXPIRE-failure branch advances the counter 4 to 5
while erroring. -/
theorem C4_witness :
    ((RedisStore.Increment ⟨true, false⟩ ⟨fun _ => none, fun _ => none⟩
        "k" 60 0).1.2.2 = some GoError.storage ∧
     (RedisStore.Increment ⟨true, false⟩ ⟨fun _ => none, fun _ => none⟩
        "k" 60 0).2 = ⟨fun _ => none, fun _ => none⟩) ∧
    ((RedisStore.Increment ⟨false, true⟩ ⟨fun _ => some 4, fun _ => none⟩
        "q" 60 0).1.2.2 = some GoError.storage ∧
     (RedisStore.Increment ⟨false, true⟩ ⟨fun _ => some 4, fun _ => none⟩
        "q" 60 0).2.vals "q" = some 5) :=
  ⟨(C4_no_partial_increment ⟨true, false⟩ ⟨fun _ => none, fun _ => none⟩
      "k" 60 0).1 rfl,
   (C4_no_partial_increment ⟨false, true⟩ ⟨fun _ => some 4, fun _ => none⟩
      "q" 60 0).2 rfl rfl rfl⟩

/-- The operations of the in-memory store: an `Increment`, a `Get`
(read-only), or one pass of the background cleanup sweep. -/
inductive MemOp where
  | inc (key : String) (ttl now : Int)
  | get (key : String) (now : Int)
  | sweep (now : Int)

/-- Effect of one operation on the map (`Get` does not mutate). -/
def MemOp.apply (m : MemMap) : MemOp → MemMap
  | .inc key ttl now => (MemoryStore.Increment m key ttl now).2
  | .get _ _ => m
  | .sweep now => MemoryStore.cleanupSweep m now

/-- Run a sequence of store operations from a map. -/
def runOps (m : MemMap) (ops : List MemOp) : MemMap :=
  ops.foldl MemOp.apply m

/-- Invariant: every value stored in the map is a non-nil pointer to an
entry whose count is at least 1. -/
def GoodMap (m : MemMap) : Prop :=
  ∀ k v, m k = some v → ∃ e, v = some e ∧ 1 ≤ e.count

/-- Storing a non-nil entry with positive count preserves the invariant. -/
theorem goodMap_update (m : MemMap) (key : String) (e : Entry)
    (h : GoodMap m) (he : 1 ≤ e.count) :
    GoodMap (updateFn m key (some (some e))) := by
  intro k v hv
  unfold updateFn at hv
  by_cases hk : k = key
  · rw [if_pos hk] at hv
    exact ⟨e, (Option.some.inj hv).symm, he⟩
  · rw [if_neg hk] at hv
    exact h k v hv

/-- `Increment` preserves the invariant and returns a count of at least
1 from any state satisfying it. -/
theorem goodMap_increment (m : MemMap) (key : String) (ttl now : Int)
    (h : GoodMap m) :
    GoodMap (MemoryStore.Increment m key ttl now).2 ∧
    1 ≤ (MemoryStore.Increment m key ttl now).1.1 := by
  rcases hm : m key with _ | (_ | e)
  · have h2 : (MemoryStore.Increment m key ttl now).2
        = updateFn m key (some (some ⟨1, now + ttl⟩)) := by
      simp [MemoryStore.Increment, hm]
    have h1 : (MemoryStore.Increment m key ttl now).1.1 = 1 := by
      simp [MemoryStore.Increment, hm]
    exact ⟨h2 ▸ goodMap_update m key ⟨1, now + ttl⟩ h (by norm_num),
      by rw [h1]⟩
  · have h2 : (MemoryStore.Increment m key ttl now).2
        = updateFn m key (some (some ⟨1, now + ttl⟩)) := by
      simp [MemoryStore.Increment, hm]
    have h1 : (MemoryStore.Increment m key ttl now).1.1 = 1 := by
      simp [MemoryStore.Increment, hm]
    exact ⟨h2 ▸ goodMap_update m key ⟨1, now + ttl⟩ h (by norm_num),
      by rw [h1]⟩
  · obtain ⟨e', he', hcnt⟩ := h key (some e) hm
    obtain rfl : e = e' := Option.some.inj he'
    by_cases hexp : e.expiry < now
    · have h2 : (MemoryStore.Increment m key ttl now).2
          = updateFn m key (some (some ⟨1, now + ttl⟩)) := by
        simp [MemoryStore.Increment, hm, hexp]
      have h1 : (MemoryStore.Increment m key ttl now).1.1 = 1 := by
        simp [MemoryStore.Increment, hm, hexp]
      exact ⟨h2 ▸ goodMap_update m key ⟨1, now + ttl⟩ h (by norm_num),
        by rw [h1]⟩
    · have h2 : (MemoryStore.Increment m key ttl now).2
          = updateFn m key (some (some ⟨e.count + 1, e.expiry⟩)) := by
        simp [MemoryStore.Increment, hm, hexp]
      have h1 : (MemoryStore.Increment m key ttl now).1.1 = e.count + 1 := by
        simp [MemoryStore.Increment, hm, hexp]
      exact ⟨h2 ▸ goodMap_update m key ⟨e.count + 1, e.expiry⟩ h
          (by show (1 : Int) ≤ e.count + 1; omega),
        by rw [h1]; omega⟩

/-- The cleanup sweep preserves the invariant. -/
theorem goodMap_sweep (m : MemMap) (now : Int) (h : GoodMap m) :
    GoodMap (MemoryStore.cleanupSweep m now) := by
  intro k v hv
  unfold MemoryStore.cleanupSweep at hv
  rcases hm : m k with _ | (_ | e) <;> simp only [hm] at hv
  · exact absurd hv (by simp)
  · exact absurd hv (by simp)
  · by_cases hexp : e.expiry < now
    · rw [if_pos hexp] at hv
      exact absurd hv (by simp)
    · rw [if_neg hexp] at hv
      obtain rfl : some e = v := Option.some.inj hv
      obtain ⟨e', he', hcnt⟩ := h k (some e) hm
      exact ⟨e', he', hcnt⟩

/-- Every operation preserves the invariant. -/
theorem goodMap_apply (m : MemMap) (op : MemOp) (h : GoodMap m) :
    GoodMap (MemOp.apply m op) := by
  cases op with
  | inc key ttl now => exact (goodMap_increment m key ttl now h).1
  | get key now => exact h
  | sweep now => exact goodMap_sweep m now h

/-- The invariant holds after any sequence of operations. -/
theorem goodMap_runOps (ops : List MemOp) (m : MemMap) (h : GoodMap m) :
    GoodMap (runOps m ops) := by
  induction ops generalizing m with
  | nil => exact h
  | cons op ops ih => exact ih _ (goodMap_apply m op h)

/-- CLAIM C10: after every finite sequence of `Increment`, `Get` and
cleanup-sweep operations starting from a fresh `MemoryStore`, every entry
present in the map is non-nil with count ≥ 1, and `Increment` from any
such reachable state returns a value ≥ 1. -/
theorem C10_reachable_invariant (ops : List MemOp) :
    GoodMap (runOps NewMemoryStore ops) ∧
    ∀ (key : String) (ttl now : Int),
      1 ≤ (MemoryStore.Increment (runOps NewMemoryStore ops)
            key ttl now).1.1 := by
  have hg : GoodMap (runOps NewMemoryStore ops) :=
    goodMap_runOps ops NewMemoryStore
      (by intro k v hv; simp [NewMemoryStore] at hv)
  exact ⟨hg, fun key ttl now => (goodMap_increment _ key ttl now hg).2⟩

/-- The data of a packed character list is that list. -/
theorem asString_data (l : List Char) : (List.asString l).data = l := rfl

/-- The decimal digit characters are pairwise distinct. -/
theorem digitChar_inj_lt : ∀ a < 10, ∀ b < 10,
    Nat.digitChar a = Nat.digitChar b → a = b := by decide

/-- No decimal digit prints as the minus sign. -/
theorem digitChar_ne_dash : ∀ a < 10, Nat.digitChar a ≠ '-' := by decide

/-- `Nat.toDigitsCore` (the core of `Nat.repr`) prints exactly the base-b
digits of `n`, most significant first, in front of the accumulator. -/
theorem toDigitsCore_eq_digits (b : Nat) (hb : 2 ≤ b) :
    ∀ (fuel n : Nat) (acc : List Char), n < fuel →
      Nat.toDigitsCore b fuel n acc
        = (if n = 0 then ['0']
           else ((Nat.digits b n).map Nat.digitChar).reverse) ++ acc := by
  intro fuel
  induction fuel with
  | zero => intro n acc h; omega
  | succ fuel ih =>
    intro n acc h
    rw [show Nat.toDigitsCore b (fuel + 1) n acc
        = (if n / b = 0 then Nat.digitChar (n % b) :: acc
           else Nat.toDigitsCore b fuel (n / b)
             (Nat.digitChar (n % b) :: acc)) from by simp [Nat.toDigitsCore]]
    by_cases hdiv : n / b = 0
    · rw [if_pos hdiv]
      by_cases hn : n = 0
      · subst hn
        simp [Nat.digitChar]
      · rw [if_neg hn]
        have hlt : n < b := (Nat.div_eq_zero_iff (by omega)).1 hdiv
        rw [Nat.digits_def' (by omega : 1 < b) (Nat.pos_of_ne_zero hn), hdiv]
        simp
    · rw [if_neg hdiv]
      have hn : n ≠ 0 := by
        intro h0
        subst h0
        simp at hdiv
      have hfuel : n / b < fuel := by
        have := Nat.div_lt_self (Nat.pos_of_ne_zero hn) (by omega : 1 < b)
        omega
      rw [ih (n / b) (Nat.digitChar (n % b) :: acc) hfuel, if_neg hdiv]
      rw [Nat.digits_def' (by omega : 1 < b) (Nat.pos_of_ne_zero hn), if_neg hn]
      simp

/-- `Nat.repr` prints the decimal digits, most significant first. -/
theorem natRepr_eq (n : Nat) :
    Nat.repr n = (if n = 0 then ['0']
      else ((Nat.digits 10 n).map Nat.digitChar).reverse).asString := by
  unfold Nat.repr Nat.toDigits
  rw [toDigitsCore_eq_digits 10 (by omega) (n + 1) n [] (Nat.lt_succ_self n)]
  rw [List.append_nil]

/-- Digits in base 10 are below 10. -/
theorem digits_lt_ten {n d : Nat} (hd : d ∈ Nat.digits 10 n) : d < 10 :=
  Nat.digits_lt_base (by omega) hd

/-- Mapping `digitChar` over lists of digits below 10 is injective. -/
theorem map_digitChar_inj : ∀ (l1 l2 : List Nat),
    (∀ x ∈ l1, x < 10) → (∀ x ∈ l2, x < 10) →
    l1.map Nat.digitChar = l2.map Nat.digitChar → l1 = l2 := by
  intro l1
  induction l1 with
  | nil =>
    intro l2 _ _ h
    cases l2 with
    | nil => rfl
    | cons b l => simp at h
  | cons a l ih =>
    intro l2 h1 h2 h
    cases l2 with
    | nil => simp at h
    | cons b l' =>
      simp only [List.map_cons, List.cons.injEq] at h
      have hab : a = b :=
        digitChar_inj_lt a (h1 a (by simp)) b (h2 b (by simp)) h.1
      subst hab
      rw [ih l' (fun x hx => h1 x (by simp [hx]))
        (fun x hx => h2 x (by simp [hx])) h.2]

/-- The decimal printer for naturals is injective. -/
theorem natRepr_inj {m n : Nat} (h : Nat.repr m = Nat.repr n) : m = n := by
  rw [natRepr_eq, natRepr_eq] at h
  have hdata :
      (if m = 0 then ['0'] else ((Nat.digits 10 m).map Nat.digitChar).reverse)
        = (if n = 0 then ['0']
           else ((Nat.digits 10 n).map Nat.digitChar).reverse) :=
    congrArg String.data h
  have singleton_case : ∀ k : Nat, k ≠ 0 →
      ['0'] ≠ ((Nat.digits 10 k).map Nat.digitChar).reverse := by
    intro k hk hzero
    have h1 : (Nat.digits 10 k).map Nat.digitChar = ['0'] := by
      rw [← List.reverse_eq_iff] at hzero
      simpa using hzero.symm
    rcases hd : Nat.digits 10 k with _ | ⟨d, ds⟩
    · rw [Nat.digits_eq_nil_iff_eq_zero] at hd
      exact hk hd
    · rw [hd] at h1
      rcases ds with _ | ⟨d2, ds⟩
      · simp only [List.map_cons, List.map_nil, List.cons.injEq,
          and_true] at h1
        have hd0 : d = 0 :=
          digitChar_inj_lt d (digits_lt_ten (by rw [hd]; simp)) 0
            (by omega) (by rw [h1]; rfl)
        subst hd0
        have hof := Nat.ofDigits_digits 10 k
        rw [hd] at hof
        simp [Nat.ofDigits] at hof
        exact hk hof.symm
      · simp at h1
  by_cases hm : m = 0 <;> by_cases hn : n = 0
  · omega
  · rw [if_pos hm, if_neg hn] at hdata
    exact absurd hdata (singleton_case n hn)
  · rw [if_neg hm, if_pos hn] at hdata
    exact absurd hdata.symm (singleton_case m hm)
  · rw [if_neg hm, if_neg hn] at hdata
    have h2 := List.reverse_injective hdata
    have h3 := map_digitChar_inj _ _ (fun x hx => digits_lt_ten hx)
      (fun x hx => digits_lt_ten hx) h2
    calc m = Nat.ofDigits 10 (Nat.digits 10 m) :=
        (Nat.ofDigits_digits 10 m).symm
      _ = Nat.ofDigits 10 (Nat.digits 10 n) := by rw [h3]
      _ = n := Nat.ofDigits_digits 10 n

/-- A printed natural never contains the minus sign. -/
theorem dash_not_in_natRepr (m : Nat) : '-' ∉ (Nat.repr m).data := by
  rw [natRepr_eq]
  by_cases hm : m = 0
  · rw [if_pos hm, asString_data]
    simp
  · rw [if_neg hm, asString_data]
    intro h
    rw [List.mem_reverse] at h
    obtain ⟨d, hd, hchar⟩ := List.mem_map.1 h
    exact digitChar_ne_dash d (digits_lt_ten hd) hchar

/-- The decimal printer for integers (Sprintf %d) is injective. -/
theorem intRepr_inj {i j : Int} (h : Int.repr i = Int.repr j) : i = j := by
  cases i with
  | ofNat m =>
    cases j with
    | ofNat n =>
      have hmn : Nat.repr m = Nat.repr n := h
      rw [natRepr_inj hmn]
    | negSucc n =>
      exfalso
      have hd : (Nat.repr m).data = ("-" ++ Nat.repr (n + 1)).data :=
        congrArg String.data h
      rw [String.data_append] at hd
      apply dash_not_in_natRepr m
      rw [hd]
      exact List.mem_append_left _ (by simp [String.data])
  | negSucc m =>
    cases j with
    | ofNat n =>
      exfalso
      have hd : (Nat.repr n).data = ("-" ++ Nat.repr (m + 1)).data :=
        congrArg String.data h.symm
      rw [String.data_append] at hd
      apply dash_not_in_natRepr n
      rw [hd]
      exact List.mem_append_left _ (by simp [String.data])
    | negSucc n =>
      have hd : ("-" ++ Nat.repr (m + 1)).data
          = ("-" ++ Nat.repr (n + 1)).data := congrArg String.data h
      rw [String.data_append, String.data_append] at hd
      have h2 : (Nat.repr (m + 1)).data = (Nat.repr (n + 1)).data :=
        List.append_cancel_left hd
      have h3 := natRepr_inj (String.ext h2)
      have hmn : m = n := by omega
      rw [hmn]

/-- One string can be cancelled from the left of an append equation. -/
theorem string_append_cancel_left (s x y : String) (h : s ++ x = s ++ y) :
    x = y := by
  have hd := congrArg String.data h
  rw [String.data_append, String.data_append] at hd
  exact String.ext (List.append_cancel_left hd)

/-- For a positive window the window start is the floor multiple. -/
theorem windowStart_eq_floor (t w : Int) (hw : 0 < w) :
    windowStart t w = t / w * w := by
  unfold windowStart
  rw [if_neg (by omega)]
  linarith [Int.ediv_add_emod t w]

/-- Flooring to seconds is strictly monotone across a gap of a second. -/
theorem unixSeconds_mono_gap (a b : Int) (h : a + 1000000000 ≤ b) :
    unixSeconds a < unixSeconds b := by
  unfold unixSeconds
  have h1 : (a + 1000000000) / 1000000000 ≤ b / 1000000000 :=
    Int.ediv_le_ediv (by norm_num) h
  have h2 : (a + 1 * 1000000000) / 1000000000 = a / 1000000000 + 1 :=
    Int.add_mul_ediv_right a 1 (by norm_num)
  rw [one_mul] at h2
  omega

/-- Distinct window starts for the same positive window differ by at
least the window. -/
theorem windowStart_gap (t1 t2 w : Int) (hw : 0 < w)
    (hne : windowStart t1 w ≠ windowStart t2 w) :
    windowStart t1 w + w ≤ windowStart t2 w ∨
    windowStart t2 w + w ≤ windowStart t1 w := by
  rw [windowStart_eq_floor t1 w hw, windowStart_eq_floor t2 w hw] at hne ⊢
  rcases lt_trichotomy (t1 / w) (t2 / w) with h | h | h
  · left
    have hh := mul_le_mul_of_nonneg_right
      (by omega : t1 / w + 1 ≤ t2 / w) (le_of_lt hw)
    nlinarith [hh]
  · exact absurd (by rw [h]) hne
  · right
    have hh := mul_le_mul_of_nonneg_right
      (by omega : t2 / w + 1 ≤ t1 / w) (le_of_lt hw)
    nlinarith [hh]

/-- CLAIM C7 (counterexample).  With the sub-second window 500ms, the Unix
epoch U and U+500ms lie in distinct windows (their boundaries differ), yet
both boundaries floor to Unix second 0, so `generateKey` produces the same
storage key for both window generations. -/
theorem C7_counterexample :
    windowStart 62135596800000000000 500000000
      ≠ windowStart 62135596800500000000 500000000 ∧
    fixedWindow.generateKey "c" 62135596800000000000 500000000
      = fixedWindow.generateKey "c" 62135596800500000000 500000000 :=
  ⟨by decide, rfl⟩

/-- CLAIM C7 (amended): under the epoch-truncated strategy, for every
window > 0 the boundary computed by `windowStart` is
floor(t/window)·window (integer floor division), and the storage key is a
deterministic function of (clientID, boundary): equal boundaries always
give equal keys, and - provided the window is at least one second -
distinct boundaries give distinct keys.  (For sub-second windows distinct
boundaries can collide on one key, since the key only embeds whole Unix
seconds.) -/
theorem C7_window_key (c : String) (t t1 t2 t3 t4 w : Int) :
    (0 < w → windowStart t w = t / w * w) ∧
    (windowStart t1 w = windowStart t2 w →
      fixedWindow.generateKey c t1 w = fixedWindow.generateKey c t2 w) ∧
    (1000000000 ≤ w → windowStart t3 w ≠ windowStart t4 w →
      fixedWindow.generateKey c t3 w ≠ fixedWindow.generateKey c t4 w) := by
  refine ⟨fun hw => windowStart_eq_floor t w hw, fun h => ?_, fun hw hne hkey => ?_⟩
  · unfold fixedWindow.generateKey
    rw [h]
  · have hw0 : 0 < w := by omega
    have hu : unixSeconds (windowStart t3 w)
        ≠ unixSeconds (windowStart t4 w) := by
      rcases windowStart_gap t3 t4 w hw0 hne with hgap | hgap
      · exact ne_of_lt (unixSeconds_mono_gap _ _ (by omega))
      · exact (ne_of_lt (unixSeconds_mono_gap _ _ (by omega))).symm
    exact hu (intRepr_inj (string_append_cancel_left _ _ _ hkey))

/-- CLAIM C7 witness: with the 2-second window, instants 5 and 7 share the
boundary 0 and the key, while 5 and 2000000001 have distinct boundaries
and distinct keys. -/
theorem C7_witness :
    windowStart 3 2000000000 = 3 / 2000000000 * 2000000000 ∧
    fixedWindow.generateKey "c" 5 2000000000
      = fixedWindow.generateKey "c" 7 2000000000 ∧
    fixedWindow.generateKey "c" 5 2000000000
      ≠ fixedWindow.generateKey "c" 2000000001 2000000000 :=
  ⟨(C7_window_key "c" 3 5 7 5 2000000001 2000000000).1 (by decide),
   (C7_window_key "c" 3 5 7 5 2000000001 2000000000).2.1 (by decide),
   (C7_window_key "c" 3 5 7 5 2000000001 2000000000).2.2 (by decide)
     (by decide)⟩

/-- Iterate `Limiter.Allow` over the memory store at the given call
instants, collecting the decisions in order. -/
def runAllows (configs : String → Option ClientConfig) (client : String)
    (m : MemMap) : List Int → List (Bool × Int × Int × Option GoError)
  | [] => []
  | t :: ts =>
    (Limiter.Allow memStoreFn configs client t m).1 ::
      runAllows configs client
        (Limiter.Allow memStoreFn configs client t m).2 ts

/-- One `Allow` call on a live entry: the count advances by one, the
expiry is preserved and returned as the reset time. -/
theorem allow_live_step (configs : String → Option ClientConfig)
    (client : String) (cfg : ClientConfig) (j E u : Int) (m : MemMap)
    (hcfg : (configs client).getD DefaultConfig = cfg)
    (hm : m (keyForClient client) = some (some ⟨j, E⟩))
    (hu : ¬ E < u) :
    Limiter.Allow memStoreFn configs client u m
      = ((decide (j + 1 ≤ cfg.limit),
          (if cfg.limit - (j + 1) < 0 then 0 else cfg.limit - (j + 1)),
          E, none),
         updateFn m (keyForClient client) (some (some ⟨j + 1, E⟩))) := by
  have hstore : memStoreFn (keyForClient client) cfg.window u m
      = ((j + 1, E, none),
         updateFn m (keyForClient client) (some (some ⟨j + 1, E⟩))) := by
    simp [memStoreFn, MemoryStore.Increment, hm, hu]
  simp only [Limiter.Allow]
  rw [hcfg, hstore]
  simp [hu]

/-- One `Allow` call on a fresh key: the entry is created with count 1
and a full window. -/
theorem allow_fresh_step (configs : String → Option ClientConfig)
    (client : String) (cfg : ClientConfig) (t : Int) (m : MemMap)
    (hcfg : (configs client).getD DefaultConfig = cfg)
    (hfresh : m (keyForClient client) = none)
    (hwpos : 0 < cfg.window) :
    Limiter.Allow memStoreFn configs client t m
      = ((decide (1 ≤ cfg.limit),
          (if cfg.limit - 1 < 0 then 0 else cfg.limit - 1),
          t + cfg.window, none),
         updateFn m (keyForClient client)
           (some (some ⟨1, t + cfg.window⟩))) := by
  have hstore : memStoreFn (keyForClient client) cfg.window t m
      = ((1, t + cfg.window, none),
         updateFn m (keyForClient client)
           (some (some ⟨1, t + cfg.window⟩))) := by
    simp [memStoreFn, MemoryStore.Increment, hfresh]
  simp only [Limiter.Allow]
  rw [hcfg, hstore]
  have hexp : ¬ t + cfg.window < t := by omega
  simp [hexp]

/-- Running `Allow` repeatedly against a live entry with count `j` yields,
at position `i`, the decision derived from count `j + i + 1`. -/
theorem runAllows_live (configs : String → Option ClientConfig)
    (client : String) (cfg : ClientConfig)
    (hcfg : (configs client).getD DefaultConfig = cfg) :
    ∀ (ts : List Int) (m : MemMap) (j E : Int),
      m (keyForClient client) = some (some ⟨j, E⟩) →
      (∀ u ∈ ts, ¬ E < u) →
      ∀ i (hi : i < (runAllows configs client m ts).length),
        (runAllows configs client m ts).get ⟨i, hi⟩
          = (decide (j + (i : Int) + 1 ≤ cfg.limit),
             (if cfg.limit - (j + (i : Int) + 1) < 0 then 0
              else cfg.limit - (j + (i : Int) + 1)),
             E, none) := by
  intro ts
  induction ts with
  | nil =>
    intro m j E hm hts i hi
    simp [runAllows] at hi
  | cons u ts ih =>
    intro m j E hm hts i hi
    have hstep := allow_live_step configs client cfg j E u m hcfg hm
      (hts u (by simp))
    cases i with
    | zero =>
      show (Limiter.Allow memStoreFn configs client u m).1 = _
      rw [hstep]
      norm_num
    | succ i =>
      have hi' : i < (runAllows configs client
          (Limiter.Allow memStoreFn configs client u m).2 ts).length := by
        have hlen : (runAllows configs client m (u :: ts)).length
            = (runAllows configs client
                (Limiter.Allow memStoreFn configs client u m).2 ts).length
              + 1 := rfl
        omega
      have hm1 : (Limiter.Allow memStoreFn configs client u m).2
          (keyForClient client) = some (some ⟨j + 1, E⟩) := by
        rw [hstep]
        simp [updateFn]
      have hts1 : ∀ v ∈ ts, ¬ E < v := fun v hv => hts v (by simp [hv])
      have hrec := ih (Limiter.Allow memStoreFn configs client u m).2
        (j + 1) E hm1 hts1 i hi'
      show (runAllows configs client
          (Limiter.Allow memStoreFn configs client u m).2 ts).get ⟨i, hi'⟩
        = _
      rw [hrec]
      have harith : j + 1 + (i : Int) + 1 = j + ((i + 1 : Nat) : Int) + 1 := by
        push_cast
        ring
      rw [harith]

/-- CLAIM C3: for every sequence of successful `Allow` calls for the same
client starting on a fresh key, with all later calls inside the first
call's window, the i-th decision is derived from cumulative count i+1;
hence `remaining` is non-increasing and never negative, and `allowed`
holds exactly while the cumulative count is at most the limit (it turns
false at the first call whose count exceeds the limit and stays false). -/
theorem C3_same_window (configs : String → Option ClientConfig)
    (client : String) (cfg : ClientConfig) (m : MemMap) (t : Int)
    (ts : List Int)
    (hcfg : (configs client).getD DefaultConfig = cfg)
    (hfresh : m (keyForClient client) = none)
    (hwpos : 0 < cfg.window)
    (hwin : ∀ u ∈ ts, u < t + cfg.window) :
    (∀ i (hi : i < (runAllows configs client m (t :: ts)).length),
      (runAllows configs client m (t :: ts)).get ⟨i, hi⟩
        = (decide ((i : Int) + 1 ≤ cfg.limit),
           (if cfg.limit - ((i : Int) + 1) < 0 then 0
            else cfg.limit - ((i : Int) + 1)),
           t + cfg.window, none)) ∧
    (∀ i j (hi : i < (runAllows configs client m (t :: ts)).length)
        (hj : j < (runAllows configs client m (t :: ts)).length), i ≤ j →
      ((runAllows configs client m (t :: ts)).get ⟨j, hj⟩).2.1
        ≤ ((runAllows configs client m (t :: ts)).get ⟨i, hi⟩).2.1) ∧
    (∀ i (hi : i < (runAllows configs client m (t :: ts)).length),
      0 ≤ ((runAllows configs client m (t :: ts)).get ⟨i, hi⟩).2.1) ∧
    (∀ i (hi : i < (runAllows configs client m (t :: ts)).length),
      (((runAllows configs client m (t :: ts)).get ⟨i, hi⟩).1 = true
        ↔ (i : Int) + 1 ≤ cfg.limit)) := by
  have hface : ∀ i (hi : i < (runAllows configs client m (t :: ts)).length),
      (runAllows configs client m (t :: ts)).get ⟨i, hi⟩
        = (decide ((i : Int) + 1 ≤ cfg.limit),
           (if cfg.limit - ((i : Int) + 1) < 0 then 0
            else cfg.limit - ((i : Int) + 1)),
           t + cfg.window, none) := by
    intro i hi
    have hstep := allow_fresh_step configs client cfg t m hcfg hfresh hwpos
    cases i with
    | zero =>
      show (Limiter.Allow memStoreFn configs client t m).1 = _
      rw [hstep]
      norm_num
    | succ i =>
      have hi' : i < (runAllows configs client
          (Limiter.Allow memStoreFn configs client t m).2 ts).length := by
        have hlen : (runAllows configs client m (t :: ts)).length
            = (runAllows configs client
                (Limiter.Allow memStoreFn configs client t m).2 ts).length
              + 1 := rfl
        omega
      have hm1 : (Limiter.Allow memStoreFn configs client t m).2
          (keyForClient client) = some (some ⟨1, t + cfg.window⟩) := by
        rw [hstep]
        simp [updateFn]
      have hts1 : ∀ u ∈ ts, ¬ t + cfg.window < u := by
        intro u hu
        have := hwin u hu
        omega
      have hrec := runAllows_live configs client cfg hcfg ts
        (Limiter.Allow memStoreFn configs client t m).2 1 (t + cfg.window)
        hm1 hts1 i hi'
      show (runAllows configs client
          (Limiter.Allow memStoreFn configs client t m).2 ts).get ⟨i, hi'⟩
        = _
      rw [hrec]
      have harith : (1 : Int) + (i : Int) + 1 = ((i + 1 : Nat) : Int) + 1 := by
        push_cast
        ring
      rw [harith]
  refine ⟨hface, ?_, ?_, ?_⟩
  · intro i j hi hj hij
    have hcast : (i : Int) ≤ (j : Int) := by exact_mod_cast hij
    simp only [hface i hi, hface j hj]
    split <;> split <;> omega
  · intro i hi
    simp only [hface i hi]
    split <;> omega
  · intro i hi
    simp only [hface i hi]
    simp

/-- CLAIM C3 witness: three calls at instants 0, 1, 2 inside the default
window on a fresh store. -/
theorem C3_witness :
    (∀ i (hi : i < (runAllows (fun _ => none) "c" NewMemoryStore
        [0, 1, 2]).length),
      (runAllows (fun _ => none) "c" NewMemoryStore [0, 1, 2]).get ⟨i, hi⟩
        = (decide ((i : Int) + 1 ≤ DefaultConfig.limit),
           (if DefaultConfig.limit - ((i : Int) + 1) < 0 then 0
            else DefaultConfig.limit - ((i : Int) + 1)),
           0 + DefaultConfig.window, none)) ∧
    (∀ i j (hi : i < (runAllows (fun _ => none) "c" NewMemoryStore
        [0, 1, 2]).length)
        (hj : j < (runAllows (fun _ => none) "c" NewMemoryStore
          [0, 1, 2]).length), i ≤ j →
      ((runAllows (fun _ => none) "c" NewMemoryStore [0, 1, 2]).get
          ⟨j, hj⟩).2.1
        ≤ ((runAllows (fun _ => none) "c" NewMemoryStore [0, 1, 2]).get
          ⟨i, hi⟩).2.1) ∧
    (∀ i (hi : i < (runAllows (fun _ => none) "c" NewMemoryStore
        [0, 1, 2]).length),
      0 ≤ ((runAllows (fun _ => none) "c" NewMemoryStore [0, 1, 2]).get
        ⟨i, hi⟩).2.1) ∧
    (∀ i (hi : i < (runAllows (fun _ => none) "c" NewMemoryStore
        [0, 1, 2]).length),
      (((runAllows (fun _ => none) "c" NewMemoryStore [0, 1, 2]).get
          ⟨i, hi⟩).1 = true
        ↔ (i : Int) + 1 ≤ DefaultConfig.limit)) :=
  C3_same_window (fun _ => none) "c" DefaultConfig NewMemoryStore 0 [1, 2]
    rfl rfl (by decide) (by decide)
